import Mathlib

/-!
Verification of the session-recording stream class `Log` from
`pupy/pupylib/PupyModule.py`.

The embedding models the `Log` object as a pure state machine.  Text and byte
strings are `List ℕ` of character codes (the Python 2 code treats both `str`
and `unicode` uniformly here; ASCII codes are listed in comments next to each
literal).  Wall-clock time (`time.time()`) is an external input to every
operation and is modelled as a natural number of microsecond ticks, so that
`math.modf(now)` becomes division and remainder by 10^6 and time differences
are exact; the textual rendering of Python floats is abstracted as decimal
integer rendering (no claim depends on the float notation).  The two file-like
sinks (`self.out`, `self.log`) are modelled as buffers recording every write,
a closed flag and a flush counter, so "performs no I/O" is expressible as
state equality.

Modelled methods: `__init__`, `write`, `flush`, `close`, `getvalue`,
`truncate`.  The read-side passthroughs (`read`, `readline`, `readlines`,
`fileno`, `isatty`) forward to `self.out` and carry no recording state.
-/

/-- A file-like sink (`self.out` / `self.log`): everything ever written, in
order, plus the closed flag and a count of `flush()` calls (to observe that
no-op paths really perform no I/O). -/
structure Sink where
  buf : List ℕ
  closed : Bool
  flushes : ℕ
  deriving DecidableEq

/-- The two recognised recording formats, `('asciinema', 'ttyrec')` in line 79
of the source.  A `rec` argument outside these two values behaves exactly like
`None` (the membership test fails), so it is folded into `Option.none`. -/
inductive RecMode where
  | asciinema
  | ttyrec
  deriving DecidableEq

/-- The state of one `Log` instance: the two sinks and the attributes set in
`Log.__init__` (`close_out`, `closed`, `rec`, `last`, `start`, `unicode`). -/
structure LogState where
  out : Sink
  log : Sink
  close_out : Bool
  closed : Bool
  recMode : Option RecMode
  last : ℕ
  start : ℕ
  unicode : Bool
  deriving DecidableEq

/-- Little-endian bytes of one `<I` field of `struct.pack('<III', ...)`.
`struct.pack` demands `0 ≤ n < 2^32`; theorems carry that bound as a
hypothesis, under which these four bytes determine `n` exactly. -/
def pack32le (n : ℕ) : List ℕ :=
  [n % 256, n / 256 % 256, n / 65536 % 256, n / 16777216 % 256]

/-- Decimal digits of `n`, fuel-driven so that it evaluates by kernel
reduction; `natRender` supplies adequate fuel. -/
def natDigitsF : ℕ → ℕ → List ℕ
  | 0, _ => []
  | f + 1, n => if n < 10 then [48 + n] else natDigitsF f (n / 10) ++ [48 + n % 10]

/-- Decimal rendering of a natural number, as `str.format` / `json.dumps`
print a non-negative integer. -/
def natRender (n : ℕ) : List ℕ := natDigitsF (n + 1) n

/-- Decimal rendering of an integer (minus sign 0x2D then digits). -/
def intRender (d : ℤ) : List ℕ :=
  if d < 0 then 45 :: natRender d.natAbs else natRender d.toNat

/-- Lower-case hexadecimal digit character for `x < 16`. -/
def hexDig (x : ℕ) : ℕ := if x < 10 then 48 + x else 87 + x

/-- The `\uXXXX` escape emitted by `json.dumps` (ensure_ascii) for a code
point, backslash `u` then four lower-case hex digits. -/
def uEsc (c : ℕ) : List ℕ :=
  [92, 117, hexDig (c / 4096 % 16), hexDig (c / 256 % 16), hexDig (c / 16 % 16), hexDig (c % 16)]

/-- Per-character escaping of `json.dumps` with its default `ensure_ascii`:
`"` and `\` get a backslash, the five named control escapes are used for
backspace, tab, newline, formfeed, return, and every other character outside
0x20..0x7e becomes `\uXXXX`. -/
def jsonEscapeChar (c : ℕ) : List ℕ :=
  if c = 34 then [92, 34]
  else if c = 92 then [92, 92]
  else if c = 8 then [92, 98]
  else if c = 9 then [92, 116]
  else if c = 10 then [92, 110]
  else if c = 12 then [92, 102]
  else if c = 13 then [92, 114]
  else if c < 32 ∨ 126 < c then uEsc c
  else [c]

/-- Escape every character of a string for a JSON string literal. -/
def escAll : List ℕ → List ℕ
  | [] => []
  | c :: s => jsonEscapeChar c ++ escAll s

/-- The JSON string literal `json.dumps` produces for a string: quote,
escaped body, quote. -/
def jsonStr (s : List ℕ) : List ℕ := 34 :: (escAll s ++ [34])

/-- `json.dumps` of an optional string: `None` prints as `null`. -/
def jsonDumpOpt : Option (List ℕ) → List ℕ
  | none => [110, 117, 108, 108]
  | some s => jsonStr s

/-- ASCII of `command`. -/
def kCommand : List ℕ := [99, 111, 109, 109, 97, 110, 100]

/-- ASCII of `title`. -/
def kTitle : List ℕ := [116, 105, 116, 108, 101]

/-- ASCII of `env`. -/
def kEnv : List ℕ := [101, 110, 118]

/-- ASCII of `version`. -/
def kVersion : List ℕ := [118, 101, 114, 115, 105, 111, 110]

/-- ASCII of `width`. -/
def kWidth : List ℕ := [119, 105, 100, 116, 104]

/-- ASCII of `height`. -/
def kHeight : List ℕ := [104, 101, 105, 103, 104, 116]

/-- ASCII of `stdout`. -/
def kStdout : List ℕ := [115, 116, 100, 111, 117, 116]

/-- ASCII of `duration`. -/
def kDuration : List ℕ := [100, 117, 114, 97, 116, 105, 111, 110]

/-- ASCII of `null`. -/
def litNull : List ℕ := [110, 117, 108, 108]

/-- A plain-ASCII JSON object key: quote, name, quote. -/
def jkey (s : List ℕ) : List ℕ := 34 :: (s ++ [34])

/-- One object member `"k":v` (the hand-written header has no space after the
colon). -/
def member (k v : List ℕ) : List ℕ := jkey k ++ (58 :: v)

/-- The asciinema header written at construction (source lines 91-98):
the text of `'{"command":C,"title":T,"env":null,"version":1,"width":W,`
`"height":H,"stdout":['` with `C`,`T` from `json.dumps` and `W`,`H` printed
by `str.format`.  Code 123 is the left brace, 44 comma, 58 colon, 91 the
opening bracket of the `stdout` array. -/
def asciHeader (command title : Option (List ℕ)) (w hgt : ℕ) : List ℕ :=
  123 :: (member kCommand (jsonDumpOpt command) ++
    (44 :: (member kTitle (jsonDumpOpt title) ++
      (44 :: (member kEnv litNull ++
        (44 :: (member kVersion [49] ++
          (44 :: (member kWidth (natRender w) ++
            (44 :: (member kHeight (natRender hgt) ++
              (44 :: (jkey kStdout ++ (58 :: [91]))))))))))))))

/-- One asciinema frame, `json.dumps([duration, data])`: bracket, the
duration, comma-space (the default `json.dumps` separator), the string
literal, bracket. -/
def frameText (d : ℤ) (s : List ℕ) : List ℕ :=
  91 :: (intRender d ++ (44 :: (32 :: (jsonStr s ++ [93]))))

/-- The asciinema footer written by `close()` (source lines 163-165): the text
of `'],"duration":D}'`.  Code 93 closes the `stdout` array, 125 is the right
brace. -/
def asciFooter (d : ℤ) : List ℕ := 93 :: (44 :: (member kDuration (intRender d) ++ [125]))

/-- `' '.join(args)`. -/
def joinSp : List (List ℕ) → List ℕ
  | [] => []
  | [a] => a
  | a :: rest => a ++ (32 :: joinSp rest)

/-- Source lines 86-87: `if command and args: command = command + ' ' +`
`' '.join(args)`.  Python truthiness: the branch runs only when `command` is
a non-empty string and `args` a non-empty sequence. -/
def combineCmd (command : Option (List ℕ)) (args : Option (List (List ℕ))) : Option (List ℕ) :=
  match command, args with
  | some c, some l => if c ≠ [] ∧ l ≠ [] then some (c ++ (32 :: joinSp l)) else some c
  | _, _ => command

/-- Modelled from the spec: `consize` (imported from `pupylib.utils.term`,
whose source is not included under src/) queries the live console's terminal
size.  Per the spec the live sink "must expose a terminal-size query
returning (rows, columns) or an unknown indicator", the header records
width = columns and height = rows, and "if unavailable, treat as zero with no
error".  The query result is therefore an `Option (rows × columns)` input,
and `consize` yields the pair `(h, l)` unpacked at line 90, with the width
component first. -/
def consize : Option (ℕ × ℕ) → ℕ × ℕ
  | some (rows, cols) => (cols, rows)
  | none => (0, 0)

/-- The replacement marker U+FFFD (`errors='replace'`) or nothing
(`errors='ignore'`). -/
def utf8Err (rep : Bool) : List ℕ := if rep then [65533] else []

/-- Byte-at-a-time UTF-8 decoding automaton: `n` pending continuation bytes,
`acc` the partial code point, fuel strictly decreasing (an invalid
continuation byte re-enters the start state on the same byte, so fuel
`2*length+2` always suffices).  This models Python's `bytes.decode('utf-8')`
with `errors='ignore'`/`'replace'`; no theorem below depends on its fine
structure because every recording-mode `Log` in the repository is constructed
with `unicode=False` (PupyModule.init, lines 263-268). -/
def utf8Step (rep : Bool) : ℕ → List ℕ → ℕ → ℕ → List ℕ
  | 0, _, _, _ => []
  | _ + 1, [], 0, _ => []
  | _ + 1, [], _ + 1, _ => utf8Err rep
  | f + 1, b :: rest, 0, _ =>
      if b < 128 then b :: utf8Step rep f rest 0 0
      else if 192 ≤ b ∧ b ≤ 223 then utf8Step rep f rest 1 (b - 192)
      else if 224 ≤ b ∧ b ≤ 239 then utf8Step rep f rest 2 (b - 224)
      else if 240 ≤ b ∧ b ≤ 247 then utf8Step rep f rest 3 (b - 240)
      else utf8Err rep ++ utf8Step rep f rest 0 0
  | f + 1, b :: rest, n + 1, acc =>
      if 128 ≤ b ∧ b ≤ 191 then
        match n with
        | 0 => (acc * 64 + (b - 128)) :: utf8Step rep f rest 0 0
        | m + 1 => utf8Step rep f rest (m + 1) (acc * 64 + (b - 128))
      else utf8Err rep ++ utf8Step rep f (b :: rest) 0 0

/-- `data.decode('utf-8', errors='ignore')` (write path, line 121). -/
def utf8DecodeIgnore (s : List ℕ) : List ℕ := utf8Step false (2 * s.length + 2) s 0 0

/-- `command.decode('utf-8', errors='replace')` (plain header path, line 105). -/
def utf8DecodeReplace (s : List ℕ) : List ℕ := utf8Step true (2 * s.length + 2) s 0 0

/-- Whether `pat` is an initial segment of `s`. -/
def beginsWith : List ℕ → List ℕ → Bool
  | [], _ => true
  | _ :: _, [] => false
  | p :: ps, c :: cs => p == c && beginsWith ps cs

/-- Fuel-driven substring test. -/
def occursInF : ℕ → List ℕ → List ℕ → Bool
  | 0, _, _ => false
  | f + 1, pat, s =>
      beginsWith pat s ||
        match s with
        | [] => false
        | _ :: rest => occursInF f pat rest

/-- Whether `pat` occurs as a contiguous substring of `s`. -/
def occursIn (pat s : List ℕ) : Bool := occursInF (s.length + 1) pat s

/-- The matches of `re.compile('(\\033[^m]+m)').finditer(data)` in scan
order.  At an ESC byte (27) the greedy `[^m]+` consumes the maximal run of
non-`m` bytes; the match succeeds when that run is non-empty and an `m` (109)
follows, and scanning resumes after the match; otherwise scanning advances
one character, exactly as the regex engine does. -/
def findMatchesF : ℕ → List ℕ → List (List ℕ)
  | 0, _ => []
  | _ + 1, [] => []
  | f + 1, c :: rest =>
      if c = 27 ∧ rest.takeWhile (fun x => x != 109) ≠ [] ∧
          rest.dropWhile (fun x => x != 109) ≠ [] then
        (27 :: (rest.takeWhile (fun x => x != 109) ++ [109])) ::
          findMatchesF f ((rest.dropWhile (fun x => x != 109)).drop 1)
      else findMatchesF f rest

/-- All regex matches of the cleaner pattern within one chunk. -/
def findMatches (s : List ℕ) : List (List ℕ) := findMatchesF (s.length + 1) s

/-- The word size of the modelled interpreter: 2^64.  The source runs on
CPython 2, whose string hashes and probe indices are C `long`/`size_t`
arithmetic; the model follows a 64-bit build (the slot orders at every
concrete input used below coincide with a 32-bit build's). -/
def U64 : ℕ := 18446744073709551616

/-- The multiply-xor loop of CPython 2.7's `string_hash` (stringobject.c):
`x = (1000003*x) ^ c` over every byte, modulo the word size. -/
def pyHashLoop : List ℕ → ℕ → ℕ
  | [], x => x
  | c :: s, x => pyHashLoop s (((1000003 * x) % U64) ^^^ c)

/-- CPython 2.7's deterministic string hash (stringobject.c `string_hash`,
hash randomization off — the Python 2 default): `x = s[0] << 7`, then the
multiply-xor loop over all bytes including the first, then `x ^= len(s)`,
with `-1` mapped to `-2` (as unsigned words: 2^64-1 to 2^64-2).  Checked
against the known value `hash('a') = 12416037344`. -/
def pyHash (s : List ℕ) : ℕ :=
  match s with
  | [] => 0
  | c :: _ =>
      let x := pyHashLoop s ((c * 128) % U64)
      let x1 := x ^^^ s.length
      if x1 = U64 - 1 then U64 - 2 else x1

/-- One probe walk of CPython 2.7's `set_lookkey` (setobject.c): start at
`hash mod size`, and on a slot held by a different key continue with
`i = 5*i + perturb + 1` (word arithmetic), `perturb >>= 5`, reading slot
`i mod size`.  Returns whether the key was already present and the slot
reached; the fuel (16 + size always suffices: perturb is exhausted within 13
shifts and `i := 5*i+1 mod size` then cycles through every slot) only makes
the recursion structural. -/
def probeSlots (table : List (Option (List ℕ))) (key : List ℕ) :
    ℕ → ℕ → ℕ → Option (Bool × ℕ)
  | 0, _, _ => none
  | f + 1, i, perturb =>
      match table.getD (i % table.length) none with
      | none => some (false, i % table.length)
      | some k =>
          if k = key then some (true, i % table.length)
          else probeSlots table key f ((5 * i + perturb + 1) % U64) (perturb / 32)

/-- The probe walk of `set_insert_clean` (used while resizing): same index
sequence, stopping at the first empty slot. -/
def probeEmpty (table : List (Option (List ℕ))) : ℕ → ℕ → ℕ → Option ℕ
  | 0, _, _ => none
  | f + 1, i, perturb =>
      match table.getD (i % table.length) none with
      | none => some (i % table.length)
      | some _ => probeEmpty table f ((5 * i + perturb + 1) % U64) (perturb / 32)

/-- `set_insert_clean`: place a key (known absent) at the first empty slot of
its probe sequence. -/
def insertClean (table : List (Option (List ℕ))) (key : List ℕ) : List (Option (List ℕ)) :=
  match probeEmpty table (16 + table.length) (pyHash key % table.length) (pyHash key) with
  | some slot => table.set slot (some key)
  | none => table

/-- Number of occupied slots (`so->used`; with no deletions `fill = used`). -/
def setUsed (table : List (Option (List ℕ))) : ℕ := (table.filterMap id).length

/-- The doubling loop of `set_table_resize`: the smallest power of two,
starting from `PySet_MINSIZE = 8`, strictly greater than `minused`. -/
def growSize : ℕ → ℕ → ℕ → ℕ
  | 0, s, _ => s
  | f + 1, s, minused => if s ≤ minused then growSize f (2 * s) minused else s

/-- New table size for `set_table_resize`. -/
def setNewSize (minused : ℕ) : ℕ := growSize (minused + 4) 8 minused

/-- `set_table_resize`: walk the old table in ascending slot order and
re-insert every key cleanly into a fresh table. -/
def resizeTable (old : List (Option (List ℕ))) (newSize : ℕ) : List (Option (List ℕ)) :=
  (old.filterMap id).foldl insertClean (List.replicate newSize none)

/-- `set_add_key`: probe; if absent, occupy the slot the probe ended on, then
resize to `setNewSize (4*used)` (`2*used` beyond 50000 keys) once
`fill*3 >= size*2`. -/
def setAdd (table : List (Option (List ℕ))) (key : List ℕ) : List (Option (List ℕ)) :=
  match probeSlots table key (16 + table.length) (pyHash key % table.length) (pyHash key) with
  | some (true, _) => table
  | some (false, slot) =>
      let t2 := table.set slot (some key)
      if 3 * setUsed t2 ≥ 2 * t2.length then
        resizeTable t2
          (setNewSize (if setUsed t2 > 50000 then 2 * setUsed t2 else 4 * setUsed t2))
      else t2
  | none => table

/-- The contents of the CPython 2.7 `set` built by adding `keys` in order to
an initially empty 8-slot set, read back in iteration order — ascending slot
index (setobject.c `setiter_iternext`).  This is the order `for seq in seqs`
visits the deduplicated matched sequences. -/
def pySetList (keys : List (List ℕ)) : List (List ℕ) :=
  (keys.foldl setAdd (List.replicate 8 none)).filterMap id

/-- Fuel-driven `str.replace(pat, '')`: delete the leftmost occurrence,
continue after it, never rescanning the output. -/
def removeAllF : ℕ → List ℕ → List ℕ → List ℕ
  | 0, _, s => s
  | f + 1, pat, s =>
      match s with
      | [] => []
      | c :: rest =>
          if beginsWith pat s then removeAllF f pat (s.drop pat.length)
          else c :: removeAllF f pat rest

/-- `data.replace(seq, '')`; an empty pattern returns the string unchanged,
as in Python. -/
def removeAll (pat s : List ℕ) : List ℕ :=
  if pat = [] then s else removeAllF (s.length + 1) pat s

/-- The plain-mode sanitizer (source lines 137-144): collect the distinct
matched sequences of this chunk into a Python `set`, then delete every
occurrence of each, one `replace` pass per sequence, in the set's
iteration order (hash-slot ascending, per `pySetList`). -/
def clean (data : List ℕ) : List ℕ :=
  (pySetList (findMatches data)).foldl (fun d s => removeAll s d) data

/-- Append to a sink (`.write`). -/
def sinkWrite (d : List ℕ) (s : Sink) : Sink := { s with buf := s.buf ++ d }

/-- Flush a sink (`.flush`), recorded as a counter bump. -/
def sinkFlush (s : Sink) : Sink := { s with flushes := s.flushes + 1 }

/-- Close a sink (`.close`). -/
def sinkClose (s : Sink) : Sink := { s with closed := true }

/-- `Log.__init__` (source lines 73-107).  `isatty` is the value of
`self.out.isatty()`, `tsz` the terminal-size query behind `consize`, `now`
the construction-time clock (`time.time()`, only read in the asciinema and
ttyrec arms).  The effective mode drops to plain unless `rec` is one of the
two recognised formats and the live sink is a terminal. -/
def mkLog (out log : Sink) (close_out : Bool) (recArg : Option RecMode)
    (command : Option (List ℕ)) (args : Option (List (List ℕ))) (title : Option (List ℕ))
    (unicode : Bool) (isatty : Bool) (tsz : Option (ℕ × ℕ)) (now : ℕ) : LogState :=
  let recEff : Option RecMode :=
    match recArg with
    | some m => if isatty then some m else none
    | none => none
  let command1 := combineCmd command args
  match recEff with
  | some RecMode.asciinema =>
      { out := out,
        log := sinkWrite (asciHeader command1 title (consize tsz).1 (consize tsz).2) log,
        close_out := close_out, closed := false, recMode := some RecMode.asciinema,
        last := 0, start := now, unicode := unicode }
  | some RecMode.ttyrec =>
      { out := out, log := log, close_out := close_out, closed := false,
        recMode := some RecMode.ttyrec, last := now, start := 0, unicode := unicode }
  | none =>
      match command1 with
      | some c =>
          if c ≠ [] then
            { out := out,
              log := sinkWrite
                ([62, 32] ++ ((if unicode then utf8DecodeReplace c else c) ++ [10])) log,
              close_out := close_out, closed := false, recMode := none,
              last := 0, start := 0, unicode := unicode }
          else
            { out := out, log := log, close_out := close_out, closed := false,
              recMode := none, last := 0, start := 0, unicode := unicode }
      | none =>
          { out := out, log := log, close_out := close_out, closed := false,
            recMode := none, last := 0, start := 0, unicode := unicode }

/-- `Log.write(data)` (source lines 109-146) with `now = time.time()`.
Closed sessions and empty chunks return before touching either sink.  The
live sink gets `data` unmodified; the unicode flag then optionally decodes
`data` (the dynamic-type test of line 120 is vacuous here because chunks are
modelled as byte strings); the mode arm encodes into the recording sink; and
`self.last` becomes `now`. -/
def logWrite (now : ℕ) (data : List ℕ) (st : LogState) : LogState :=
  if st.closed then st
  else if data = [] then st
  else
    let out1 := sinkWrite data st.out
    let d := if st.unicode then utf8DecodeIgnore data else data
    match st.recMode with
    | some RecMode.ttyrec =>
        { st with out := out1,
                  log := sinkWrite
                    (pack32le (now / 1000000) ++
                      (pack32le (now % 1000000) ++ (pack32le d.length ++ d))) st.log,
                  last := now }
    | some RecMode.asciinema =>
        if st.last ≠ 0 then
          { st with out := out1,
                    log := sinkWrite (44 :: frameText ((now : ℤ) - (st.last : ℤ)) d) st.log,
                    last := now }
        else
          { st with out := out1, log := sinkWrite (frameText 0 d) st.log, last := now }
    | none =>
        { st with out := out1, log := sinkWrite (clean d) st.log, last := now }

/-- `Log.flush()` (source lines 148-153). -/
def logFlush (st : LogState) : LogState :=
  if st.closed then st
  else { st with out := sinkFlush st.out, log := sinkFlush st.log }

/-- `Log.close()` (source lines 155-168) with `now = time.time()` (read only
in the asciinema arm for the duration). -/
def logClose (now : ℕ) (st : LogState) : LogState :=
  if st.closed then st
  else
    let out1 := if st.close_out then sinkClose st.out else st.out
    let log1 :=
      match st.recMode with
      | some RecMode.asciinema =>
          sinkWrite (asciFooter ((now : ℤ) - (st.start : ℤ))) st.log
      | _ => st.log
    { st with out := out1, log := sinkClose log1, closed := true }

/-- `Log.getvalue()` (source lines 173-179): the live sink's buffer, plus a
flush of the recording sink when the session is still open. -/
def getValue (st : LogState) : List ℕ × LogState :=
  (st.out.buf, if st.closed then st else { st with log := sinkFlush st.log })

/-- `Log.truncate(size)` (source lines 184-189). -/
def logTruncate (size : ℕ) (st : LogState) : LogState :=
  if st.closed then st
  else { st with out := { st.out with buf := st.out.buf.take size }, log := sinkFlush st.log }

/-- Run a sequence of `write` calls, each with its own clock reading. -/
def runWrites (st : LogState) : List (ℕ × List ℕ) → LogState
  | [] => st
  | (t, d) :: ws => runWrites (logWrite t d st) ws

/-- Concatenation of the data arguments of a write sequence. -/
def catData : List (ℕ × List ℕ) → List ℕ
  | [] => []
  | p :: ws => p.2 ++ catData ws

/-- One ttyrec frame: 12-byte little-endian header (seconds, microseconds,
payload length) then the raw payload. -/
def frameBytes (t : ℕ) (d : List ℕ) : List ℕ :=
  pack32le (t / 1000000) ++ (pack32le (t % 1000000) ++ (pack32le d.length ++ d))

/-- The flat concatenation of ttyrec frames for a write sequence. -/
def ttyrecStream : List (ℕ × List ℕ) → List ℕ
  | [] => []
  | (t, d) :: ws => frameBytes t d ++ ttyrecStream ws

/-- Fuel-driven ttyrec decoder: read a 12-byte header, reassemble the three
little-endian words, take the announced number of payload bytes, repeat.  A
truncated stream fails. -/
def ttyrecDecodeF : ℕ → List ℕ → Option (List (ℕ × ℕ × ℕ × List ℕ))
  | _, [] => some []
  | 0, _ :: _ => none
  | f + 1, a0 :: a1 :: a2 :: a3 :: b0 :: b1 :: b2 :: b3 :: c0 :: c1 :: c2 :: c3 :: rest =>
      let len := c0 + 256 * (c1 + 256 * (c2 + 256 * c3))
      if len ≤ rest.length then
        match ttyrecDecodeF f (rest.drop len) with
        | some frames =>
            some ((a0 + 256 * (a1 + 256 * (a2 + 256 * a3)),
                   b0 + 256 * (b1 + 256 * (b2 + 256 * b3)),
                   len, rest.take len) :: frames)
        | none => none
      else none
  | _ + 1, _ => none

/-- Decode a ttyrec byte stream into its frames. -/
def ttyrecDecode (s : List ℕ) : Option (List (ℕ × ℕ × ℕ × List ℕ)) :=
  ttyrecDecodeF s.length s

/-- The bytes the asciinema arm of `write` appends for a write sequence,
starting from a given `self.last`: a separating comma exactly when `last` is
non-zero, then the frame with the computed duration. -/
def asciRun : ℕ → List (ℕ × List ℕ) → List ℕ
  | _, [] => []
  | last, (t, d) :: ws =>
      (if last ≠ 0 then 44 :: frameText ((t : ℤ) - (last : ℤ)) d else frameText 0 d) ++
        asciRun t ws

/-- The value of `self.last` after a write sequence. -/
def lastTime : ℕ → List (ℕ × List ℕ) → ℕ
  | last, [] => last
  | _, (t, _) :: ws => lastTime t ws

/-- The (duration, payload) pairs the asciinema arm records, by the
`if self.last` recurrence of lines 129-133. -/
def asciDeltas : ℕ → List (ℕ × List ℕ) → List (ℤ × List ℕ)
  | _, [] => []
  | last, (t, d) :: ws =>
      ((if last ≠ 0 then (t : ℤ) - (last : ℤ) else 0), d) :: asciDeltas t ws

/-- Frames after the first, each preceded by a comma. -/
def tailItems : List (ℤ × List ℕ) → List ℕ
  | [] => []
  | (d, s) :: rest => 44 :: (frameText d s ++ tailItems rest)

/-- The comma-separated frame texts of the `stdout` array. -/
def itemsOf : List (ℤ × List ℕ) → List ℕ
  | [] => []
  | (d, s) :: rest => frameText d s ++ tailItems rest

/-- Durations as the spec states them for frames after the first: each
write's timestamp minus the previous write's timestamp. -/
def specTail : ℕ → List (ℕ × List ℕ) → List (ℤ × List ℕ)
  | _, [] => []
  | tprev, (t, d) :: ws => ((t : ℤ) - (tprev : ℤ), d) :: specTail t ws

/-- Digit string of a JSON number: non-empty, decimal digits, and a leading
zero only as the single digit `0` (RFC 8259 `int`). -/
def GoodDigits (s : List ℕ) : Prop :=
  (∀ c ∈ s, 48 ≤ c ∧ c ≤ 57) ∧ s ≠ [] ∧ ∀ t, s = 48 :: t → t = []

/-- A JSON number restricted to the integer forms this program emits:
optional minus, then digits (RFC 8259 `number` without `frac`/`exp`). -/
def JNumberP (s : List ℕ) : Prop :=
  GoodDigits s ∨ ∃ t, s = 45 :: t ∧ GoodDigits t

/-- A hexadecimal digit character. -/
def isHexDig (c : ℕ) : Prop :=
  (48 ≤ c ∧ c ≤ 57) ∨ (97 ≤ c ∧ c ≤ 102) ∨ (65 ≤ c ∧ c ≤ 70)

/-- Body of a JSON string literal (RFC 8259 `char*`), restricted to the
printable-ASCII unescaped range, the short escapes, and `\uXXXX` — the forms
`json.dumps(ensure_ascii=True)` and the hand-written header produce.  Every
list this accepts is a valid JSON string body. -/
inductive JSChars : List ℕ → Prop where
  | nil : JSChars []
  | raw {c : ℕ} {s : List ℕ} : 32 ≤ c → c ≤ 126 → c ≠ 34 → c ≠ 92 →
      JSChars s → JSChars (c :: s)
  | esc {c : ℕ} {s : List ℕ} : c ∈ ([34, 92, 47, 98, 102, 110, 114, 116] : List ℕ) →
      JSChars s → JSChars (92 :: c :: s)
  | uesc {a b c d : ℕ} {s : List ℕ} : isHexDig a → isHexDig b → isHexDig c → isHexDig d →
      JSChars s → JSChars (92 :: (117 :: (a :: (b :: (c :: (d :: s))))))

/-- A JSON string literal: quote, body, quote. -/
def JStringP (s : List ℕ) : Prop := ∃ t, JSChars t ∧ s = 34 :: (t ++ [34])

mutual

/-- Syntactic validity for JSON texts, as a sound subset of the RFC 8259
grammar: every list of code points accepted here parses as one JSON value.
Whitespace appears only where this program emits it — a single space is
allowed after an array comma (`json.dumps` uses the separator comma-space);
the hand-written parts use no whitespace at all. -/
inductive JValue : List ℕ → Prop where
  | null : JValue litNull
  | tru : JValue [116, 114, 117, 101]
  | fal : JValue [102, 97, 108, 115, 101]
  | num {s : List ℕ} : JNumberP s → JValue s
  | str {s : List ℕ} : JStringP s → JValue s
  | arrNil : JValue [91, 93]
  | arr {s : List ℕ} : JItems s → JValue (91 :: (s ++ [93]))
  | objNil : JValue [123, 125]
  | obj {s : List ℕ} : JMembers s → JValue (123 :: (s ++ [125]))

/-- Non-empty comma-separated array elements, optionally with one space after
a comma. -/
inductive JItems : List ℕ → Prop where
  | single {s : List ℕ} : JValue s → JItems s
  | cons {s t : List ℕ} : JValue s → JItems t → JItems (s ++ (44 :: t))
  | consSp {s t : List ℕ} : JValue s → JItems t → JItems (s ++ (44 :: (32 :: t)))

/-- Non-empty comma-separated object members `"k":v`. -/
inductive JMembers : List ℕ → Prop where
  | single {k v : List ℕ} : JStringP k → JValue v → JMembers (k ++ (58 :: v))
  | cons {k v t : List ℕ} : JStringP k → JValue v → JMembers t →
      JMembers (k ++ (58 :: (v ++ (44 :: t))))

end

/-- The text the plain arm appends to the recording sink over a write
sequence: each chunk sanitized independently (an empty chunk contributes
nothing, matching the early return). -/
def plainRun : List (ℕ × List ℕ) → List ℕ
  | [] => []
  | (_, d) :: ws => clean d ++ plainRun ws

/-- The header line the plain arm of the constructor writes for a truthy
command when `unicode` is false: the text of `'> ' + command + '\n'`
(source lines 103-107); nothing when the command is absent or empty. -/
def plainCtorLine : Option (List ℕ) → List ℕ
  | some c => if c ≠ [] then [62, 32] ++ (c ++ [10]) else []
  | none => []

/-- All lemmas and claim theorems follow; the model definitions are above. -/
theorem take_app_len (l r : List ℕ) : (l ++ r).take l.length = l := by
  induction l with
  | nil => simp
  | cons a l ih => simp [ih]

theorem drop_app_len (l r : List ℕ) : (l ++ r).drop l.length = r := by
  induction l with
  | nil => simp
  | cons a l ih => simp [ih]

theorem unpack_pack32 (n : ℕ) (h : n < 4294967296) :
    n % 256 + 256 * (n / 256 % 256 + 256 * (n / 65536 % 256 + 256 * (n / 16777216 % 256))) = n := by
  omega

theorem clean_nil : clean [] = [] := rfl

theorem logWrite_closed (now : ℕ) (d : List ℕ) (st : LogState) (h : st.closed = true) :
    logWrite now d st = st := by
  simp [logWrite, h]

theorem logWrite_nil (now : ℕ) (st : LogState) : logWrite now [] st = st := by
  by_cases h : st.closed = true <;> simp [logWrite, h]

theorem logWrite_fields (now : ℕ) (d : List ℕ) (st : LogState)
    (hcl : st.closed = false) (hd : d ≠ []) :
    (logWrite now d st).out.buf = st.out.buf ++ d ∧
    (logWrite now d st).closed = false ∧
    (logWrite now d st).recMode = st.recMode ∧
    (logWrite now d st).start = st.start ∧
    (logWrite now d st).unicode = st.unicode ∧
    (logWrite now d st).close_out = st.close_out ∧
    (logWrite now d st).last = now ∧
    (logWrite now d st).log.closed = st.log.closed ∧
    (logWrite now d st).out.closed = st.out.closed := by
  rcases hm : st.recMode with _ | m
  · simp [logWrite, hcl, hd, hm, sinkWrite]
  · cases m
    · by_cases hl : st.last = 0 <;> simp [logWrite, hcl, hd, hm, hl, sinkWrite]
    · simp [logWrite, hcl, hd, hm, sinkWrite]

theorem logWrite_ttyrec_step (now : ℕ) (d : List ℕ) (st : LogState)
    (hcl : st.closed = false) (hrec : st.recMode = some RecMode.ttyrec)
    (huni : st.unicode = false) (hd : d ≠ []) :
    logWrite now d st =
      { st with out := sinkWrite d st.out,
                log := sinkWrite (frameBytes now d) st.log,
                last := now } := by
  simp [logWrite, hcl, hrec, huni, hd, frameBytes]

theorem logWrite_ascii_step (now : ℕ) (d : List ℕ) (st : LogState)
    (hcl : st.closed = false) (hrec : st.recMode = some RecMode.asciinema)
    (huni : st.unicode = false) (hd : d ≠ []) :
    logWrite now d st =
      { st with out := sinkWrite d st.out,
                log := sinkWrite
                  (if st.last ≠ 0 then 44 :: frameText ((now : ℤ) - (st.last : ℤ)) d
                   else frameText 0 d) st.log,
                last := now } := by
  by_cases hl : st.last = 0 <;> simp [logWrite, hcl, hrec, huni, hd, hl]

theorem logWrite_plain_step (now : ℕ) (d : List ℕ) (st : LogState)
    (hcl : st.closed = false) (hrec : st.recMode = none)
    (huni : st.unicode = false) (hd : d ≠ []) :
    logWrite now d st =
      { st with out := sinkWrite d st.out,
                log := sinkWrite (clean d) st.log,
                last := now } := by
  simp [logWrite, hcl, hrec, huni, hd]

theorem runWrites_out (ws : List (ℕ × List ℕ)) :
    ∀ st : LogState, st.closed = false →
      (runWrites st ws).out.buf = st.out.buf ++ catData ws ∧
        (runWrites st ws).closed = false := by
  induction ws with
  | nil => intro st hcl; simp [runWrites, catData, hcl]
  | cons p ws ih =>
      intro st hcl
      obtain ⟨t, d⟩ := p
      by_cases hd : d = []
      · subst hd
        rw [show runWrites st ((t, []) :: ws) = runWrites (logWrite t [] st) ws from rfl,
            logWrite_nil]
        simpa [catData] using ih st hcl
      · have hf := logWrite_fields t d st hcl hd
        have := ih (logWrite t d st) hf.2.1
        rw [show runWrites st ((t, d) :: ws) = runWrites (logWrite t d st) ws from rfl]
        simp [catData, this.1, this.2, hf.1]

theorem runWrites_ttyrec_log (ws : List (ℕ × List ℕ)) :
    ∀ st : LogState, st.closed = false → st.recMode = some RecMode.ttyrec →
      st.unicode = false → (∀ p ∈ ws, p.2 ≠ []) →
      (runWrites st ws).log.buf = st.log.buf ++ ttyrecStream ws := by
  induction ws with
  | nil => intro st hcl _ _ _; simp [runWrites, ttyrecStream]
  | cons p ws ih =>
      intro st hcl hrec huni hws
      obtain ⟨t, d⟩ := p
      have hd : d ≠ [] := hws (t, d) (by simp)
      rw [show runWrites st ((t, d) :: ws) = runWrites (logWrite t d st) ws from rfl,
          logWrite_ttyrec_step t d st hcl hrec huni hd]
      have hrest := ih
        { st with out := sinkWrite d st.out, log := sinkWrite (frameBytes t d) st.log, last := t }
        (by simp [hcl]) (by simp [hrec]) (by simp [huni])
        (fun q hq => hws q (by simp [hq]))
      simp only [sinkWrite] at hrest
      simpa [sinkWrite, ttyrecStream, List.append_assoc] using hrest

theorem runWrites_ascii (ws : List (ℕ × List ℕ)) :
    ∀ st : LogState, st.closed = false → st.recMode = some RecMode.asciinema →
      st.unicode = false → (∀ p ∈ ws, p.2 ≠ []) →
      (runWrites st ws).log.buf = st.log.buf ++ asciRun st.last ws ∧
        (runWrites st ws).last = lastTime st.last ws ∧
        (runWrites st ws).closed = false ∧
        (runWrites st ws).recMode = some RecMode.asciinema ∧
        (runWrites st ws).start = st.start ∧
        (runWrites st ws).close_out = st.close_out := by
  induction ws with
  | nil => intro st hcl hrec _ _; simp [runWrites, asciRun, lastTime, hcl, hrec]
  | cons p ws ih =>
      intro st hcl hrec huni hws
      obtain ⟨t, d⟩ := p
      have hd : d ≠ [] := hws (t, d) (by simp)
      rw [show runWrites st ((t, d) :: ws) = runWrites (logWrite t d st) ws from rfl,
          logWrite_ascii_step t d st hcl hrec huni hd]
      have hrest := ih
        { st with out := sinkWrite d st.out,
                  log := sinkWrite
                    (if st.last ≠ 0 then 44 :: frameText ((t : ℤ) - (st.last : ℤ)) d
                     else frameText 0 d) st.log,
                  last := t }
        (by simp [hcl]) (by simp [hrec]) (by simp [huni])
        (fun q hq => hws q (by simp [hq]))
      simp only [sinkWrite] at hrest
      simpa [sinkWrite, asciRun, lastTime, List.append_assoc] using hrest

theorem runWrites_plain (ws : List (ℕ × List ℕ)) :
    ∀ st : LogState, st.closed = false → st.recMode = none → st.unicode = false →
      (runWrites st ws).log.buf = st.log.buf ++ plainRun ws ∧
        (runWrites st ws).closed = false ∧
        (runWrites st ws).recMode = none ∧
        (runWrites st ws).unicode = false := by
  induction ws with
  | nil => intro st hcl hrec huni; simp [runWrites, plainRun, hcl, hrec, huni]
  | cons p ws ih =>
      intro st hcl hrec huni
      obtain ⟨t, d⟩ := p
      by_cases hd : d = []
      · subst hd
        rw [show runWrites st ((t, []) :: ws) = runWrites (logWrite t [] st) ws from rfl,
            logWrite_nil]
        simpa [plainRun, clean_nil] using ih st hcl hrec huni
      · rw [show runWrites st ((t, d) :: ws) = runWrites (logWrite t d st) ws from rfl,
            logWrite_plain_step t d st hcl hrec huni hd]
        have hrest := ih
          { st with out := sinkWrite d st.out, log := sinkWrite (clean d) st.log, last := t }
          (by simp [hcl]) (by simp [hrec]) (by simp [huni])
        simp only [sinkWrite] at hrest
        simpa [sinkWrite, plainRun, List.append_assoc] using hrest

theorem ttyrecDecodeF_stream (ws : List (ℕ × List ℕ)) :
    ∀ fuel : ℕ, (ttyrecStream ws).length ≤ fuel →
      (∀ p ∈ ws, p.2 ≠ [] ∧ p.1 < 4294967296000000 ∧ p.2.length < 4294967296) →
      ttyrecDecodeF fuel (ttyrecStream ws) =
        some (ws.map (fun p => (p.1 / 1000000, p.1 % 1000000, p.2.length, p.2))) := by
  induction ws with
  | nil => intro fuel _ _; cases fuel <;> rfl
  | cons p ws ih =>
      intro fuel hfuel hb
      obtain ⟨t, d⟩ := p
      obtain ⟨hd, ht, hl⟩ := hb (t, d) (by simp)
      have hlen : (ttyrecStream ((t, d) :: ws)).length
          = 12 + d.length + (ttyrecStream ws).length := by
        simp [ttyrecStream, frameBytes, pack32le]
        omega
      cases fuel with
      | zero => omega
      | succ f =>
          have hsec : t / 1000000 < 4294967296 := by omega
          have husec : t % 1000000 < 4294967296 := by omega
          have e1 := unpack_pack32 (t / 1000000) hsec
          have e2 := unpack_pack32 (t % 1000000) husec
          have e3 := unpack_pack32 d.length hl
          have hrest : (ttyrecStream ws).length ≤ f := by omega
          have hle : d.length ≤ (d ++ ttyrecStream ws).length := by simp
          have ihz := ih f hrest (fun q hq => hb q (by simp [hq]))
          simp only [ttyrecStream, frameBytes, pack32le, List.cons_append, List.append_assoc,
            List.nil_append]
          simp [ttyrecDecodeF, e1, e2, e3, hle, take_app_len, drop_app_len, ihz]

/-- Claim C1: in a ttyrec-mode session, a sequence of non-empty writes appends
to the recording sink exactly the concatenation, in call order, of one frame
per write — a 12-byte little-endian header of seconds, microseconds and
payload byte length followed by the raw payload — and decoding that stream
returns exactly the N frames in order, with the length field equal to the
payload's length and the payload bytes unchanged.  The bounds are the domain
of `struct.pack('<I', ...)`; recording-mode sessions are constructed with
`unicode=False` (PupyModule.init line 265), so no text decoding touches the
payload. -/
theorem ttyrec_frames_roundtrip
    (out0 log0 : Sink) (co : Bool) (cmd : Option (List ℕ)) (args : Option (List (List ℕ)))
    (title : Option (List ℕ)) (tsz : Option (ℕ × ℕ)) (t0 : ℕ) (ws : List (ℕ × List ℕ))
    (hws : ∀ p ∈ ws, p.2 ≠ [] ∧ p.1 < 4294967296000000 ∧ p.2.length < 4294967296) :
    (runWrites (mkLog out0 log0 co (some RecMode.ttyrec) cmd args title false true tsz t0)
        ws).log.buf = log0.buf ++ ttyrecStream ws ∧
      ttyrecDecode (ttyrecStream ws) =
        some (ws.map (fun p => (p.1 / 1000000, p.1 % 1000000, p.2.length, p.2))) := by
  constructor
  · have hst : mkLog out0 log0 co (some RecMode.ttyrec) cmd args title false true tsz t0 =
        { out := out0, log := log0, close_out := co, closed := false,
          recMode := some RecMode.ttyrec, last := t0, start := 0, unicode := false } := by
      simp [mkLog]
    rw [hst]
    exact runWrites_ttyrec_log ws _ rfl rfl rfl (fun p hp => (hws p hp).1)
  · exact ttyrecDecodeF_stream ws _ le_rfl hws

/-- Concrete instance of `ttyrec_frames_roundtrip`: two writes, payloads of
one and two bytes. -/
theorem ttyrec_frames_roundtrip_witness :
    (∀ p ∈ ([(1, [7]), (2000000, [8, 9])] : List (ℕ × List ℕ)),
        p.2 ≠ [] ∧ p.1 < 4294967296000000 ∧ p.2.length < 4294967296) ∧
      ((runWrites (mkLog ⟨[], false, 0⟩ ⟨[], false, 0⟩ false (some RecMode.ttyrec)
          none none none false true none 0) [(1, [7]), (2000000, [8, 9])]).log.buf
        = (⟨[], false, 0⟩ : Sink).buf ++ ttyrecStream [(1, [7]), (2000000, [8, 9])] ∧
        ttyrecDecode (ttyrecStream [(1, [7]), (2000000, [8, 9])]) =
          some (([(1, [7]), (2000000, [8, 9])] : List (ℕ × List ℕ)).map
            (fun p => (p.1 / 1000000, p.1 % 1000000, p.2.length, p.2)))) :=
  ⟨by decide, ttyrec_frames_roundtrip ⟨[], false, 0⟩ ⟨[], false, 0⟩ false none none none none 0
      [(1, [7]), (2000000, [8, 9])] (by decide)⟩

/-- Claim C3: the first `close()` on an open session closes the recording
sink, closes the live sink exactly when the ownership flag is set (leaving it
untouched otherwise), appends the duration footer exactly in asciinema mode,
and marks the session closed; any further `close()` is the identity on the
whole state, so neither sink sees any further write, flush or close. -/
theorem close_idempotent (st : LogState) (t1 : ℕ) (hcl : st.closed = false) :
    (logClose t1 st).closed = true ∧
      (logClose t1 st).log.closed = true ∧
      (st.close_out = true → (logClose t1 st).out = sinkClose st.out) ∧
      (st.close_out = false → (logClose t1 st).out = st.out) ∧
      (st.recMode = some RecMode.asciinema →
        (logClose t1 st).log.buf = st.log.buf ++ asciFooter ((t1 : ℤ) - (st.start : ℤ))) ∧
      (st.recMode ≠ some RecMode.asciinema → (logClose t1 st).log.buf = st.log.buf) ∧
      (logClose t1 st).log.flushes = st.log.flushes ∧
      ∀ t2 : ℕ, logClose t2 (logClose t1 st) = logClose t1 st := by
  have hdef : logClose t1 st =
      { st with out := if st.close_out then sinkClose st.out else st.out,
                log := sinkClose
                  (match st.recMode with
                   | some RecMode.asciinema =>
                       sinkWrite (asciFooter ((t1 : ℤ) - (st.start : ℤ))) st.log
                   | _ => st.log),
                closed := true } := by
    simp [logClose, hcl]
  refine ⟨by rw [hdef], ?_, ?_, ?_, ?_, ?_, ?_, ?_⟩
  · rw [hdef]; rcases st.recMode with _ | m
    · simp [sinkClose]
    · cases m <;> simp [sinkClose]
  · intro hco; rw [hdef]; simp [hco]
  · intro hco; rw [hdef]; simp [hco]
  · intro hrec; rw [hdef]; simp [hrec, sinkClose, sinkWrite]
  · intro hrec; rw [hdef]
    rcases hm : st.recMode with _ | m
    · simp [sinkClose]
    · cases m
      · exact absurd hm hrec
      · simp [sinkClose]
  · rw [hdef]; rcases st.recMode with _ | m
    · simp [sinkClose, sinkWrite]
    · cases m <;> simp [sinkClose, sinkWrite]
  · intro t2; rw [hdef]; simp [logClose]

/-- Concrete instance of `close_idempotent`: a plain-mode session owning its
live sink, closed at time 3. -/
theorem close_idempotent_witness :
    (mkLog ⟨[], false, 0⟩ ⟨[], false, 0⟩ true none none none none false false none 0).closed
        = false ∧
      ((logClose 3 (mkLog ⟨[], false, 0⟩ ⟨[], false, 0⟩ true none none none none
          false false none 0)).closed = true ∧
        (logClose 3 (mkLog ⟨[], false, 0⟩ ⟨[], false, 0⟩ true none none none none
          false false none 0)).log.closed = true ∧
        ((mkLog ⟨[], false, 0⟩ ⟨[], false, 0⟩ true none none none none
            false false none 0).close_out = true →
          (logClose 3 (mkLog ⟨[], false, 0⟩ ⟨[], false, 0⟩ true none none none none
            false false none 0)).out
            = sinkClose (mkLog ⟨[], false, 0⟩ ⟨[], false, 0⟩ true none none none none
                false false none 0).out) ∧
        ((mkLog ⟨[], false, 0⟩ ⟨[], false, 0⟩ true none none none none
            false false none 0).close_out = false →
          (logClose 3 (mkLog ⟨[], false, 0⟩ ⟨[], false, 0⟩ true none none none none
            false false none 0)).out
            = (mkLog ⟨[], false, 0⟩ ⟨[], false, 0⟩ true none none none none
                false false none 0).out) ∧
        ((mkLog ⟨[], false, 0⟩ ⟨[], false, 0⟩ true none none none none
            false false none 0).recMode = some RecMode.asciinema →
          (logClose 3 (mkLog ⟨[], false, 0⟩ ⟨[], false, 0⟩ true none none none none
            false false none 0)).log.buf
            = (mkLog ⟨[], false, 0⟩ ⟨[], false, 0⟩ true none none none none
                false false none 0).log.buf ++ asciFooter ((3 : ℤ) - 0)) ∧
        ((mkLog ⟨[], false, 0⟩ ⟨[], false, 0⟩ true none none none none
            false false none 0).recMode ≠ some RecMode.asciinema →
          (logClose 3 (mkLog ⟨[], false, 0⟩ ⟨[], false, 0⟩ true none none none none
            false false none 0)).log.buf
            = (mkLog ⟨[], false, 0⟩ ⟨[], false, 0⟩ true none none none none
                false false none 0).log.buf) ∧
        (logClose 3 (mkLog ⟨[], false, 0⟩ ⟨[], false, 0⟩ true none none none none
          false false none 0)).log.flushes
            = (mkLog ⟨[], false, 0⟩ ⟨[], false, 0⟩ true none none none none
                false false none 0).log.flushes ∧
        ∀ t2 : ℕ, logClose t2 (logClose 3 (mkLog ⟨[], false, 0⟩ ⟨[], false, 0⟩ true
            none none none none false false none 0))
          = logClose 3 (mkLog ⟨[], false, 0⟩ ⟨[], false, 0⟩ true none none none none
              false false none 0)) :=
  ⟨by decide, close_idempotent (mkLog ⟨[], false, 0⟩ ⟨[], false, 0⟩ true none none none none
      false false none 0) 3 (by decide)⟩

/-- Claim C4: once a session is closed, `write`, `flush` and `truncate`
return with the state — both sinks included — completely unchanged (the
guard at the top of each method returns before any sink operation, so
nothing can raise); and an empty `write` is a no-op even on an open
session. -/
theorem closed_ops_noop (st : LogState) (t : ℕ) (d : List ℕ) (size : ℕ) :
    (st.closed = true →
      logWrite t d st = st ∧ logFlush st = st ∧ logTruncate size st = st) ∧
      logWrite t [] st = st := by
  refine ⟨fun hcl => ⟨logWrite_closed t d st hcl, ?_, ?_⟩, logWrite_nil t st⟩
  · simp [logFlush, hcl]
  · simp [logTruncate, hcl]

/-- Concrete instance of `closed_ops_noop`: a closed plain session. -/
theorem closed_ops_noop_witness :
    ((logClose 1 (mkLog ⟨[], false, 0⟩ ⟨[], false, 0⟩ false none none none none
        false false none 0)).closed = true →
      logWrite 2 [5] (logClose 1 (mkLog ⟨[], false, 0⟩ ⟨[], false, 0⟩ false none none none
          none false false none 0))
        = logClose 1 (mkLog ⟨[], false, 0⟩ ⟨[], false, 0⟩ false none none none none
            false false none 0) ∧
      logFlush (logClose 1 (mkLog ⟨[], false, 0⟩ ⟨[], false, 0⟩ false none none none none
          false false none 0))
        = logClose 1 (mkLog ⟨[], false, 0⟩ ⟨[], false, 0⟩ false none none none none
            false false none 0) ∧
      logTruncate 4 (logClose 1 (mkLog ⟨[], false, 0⟩ ⟨[], false, 0⟩ false none none none
          none false false none 0))
        = logClose 1 (mkLog ⟨[], false, 0⟩ ⟨[], false, 0⟩ false none none none none
            false false none 0)) ∧
      logWrite 2 [] (logClose 1 (mkLog ⟨[], false, 0⟩ ⟨[], false, 0⟩ false none none none
          none false false none 0))
        = logClose 1 (mkLog ⟨[], false, 0⟩ ⟨[], false, 0⟩ false none none none none
            false false none 0) :=
  closed_ops_noop (logClose 1 (mkLog ⟨[], false, 0⟩ ⟨[], false, 0⟩ false none none none none
      false false none 0)) 2 [5] 4

/-- Claim C9: with a buffer-backed live sink and no intervening close,
`getvalue()` after any write sequence returns the initial live buffer plus
the exact concatenation, in call order, of every `data` argument — each
`write` forwards `data` to the live sink unmodified (line 116), before and
independently of the mode-specific encoding. -/
theorem getvalue_concatenation (st : LogState) (ws : List (ℕ × List ℕ))
    (hcl : st.closed = false) :
    (getValue (runWrites st ws)).1 = st.out.buf ++ catData ws := by
  exact (runWrites_out ws st hcl).1

/-- Concrete instance of `getvalue_concatenation`: two writes into a fresh
asciinema session concatenate on the live sink. -/
theorem getvalue_concatenation_witness :
    (mkLog ⟨[], false, 0⟩ ⟨[], false, 0⟩ false (some RecMode.asciinema) none none none
        false true none 0).closed = false ∧
      (getValue (runWrites (mkLog ⟨[], false, 0⟩ ⟨[], false, 0⟩ false
          (some RecMode.asciinema) none none none false true none 0)
          [(1, [104, 105]), (2, [33])])).1
        = (mkLog ⟨[], false, 0⟩ ⟨[], false, 0⟩ false (some RecMode.asciinema) none none none
            false true none 0).out.buf ++ catData [(1, [104, 105]), (2, [33])] :=
  ⟨by decide, getvalue_concatenation (mkLog ⟨[], false, 0⟩ ⟨[], false, 0⟩ false
      (some RecMode.asciinema) none none none false true none 0)
      [(1, [104, 105]), (2, [33])] (by decide)⟩

theorem logClose_nonascii_buf (st : LogState) (t : ℕ) (hcl : st.closed = false)
    (hrec : st.recMode = none) : (logClose t st).log.buf = st.log.buf := by
  simp [logClose, hcl, hrec, sinkClose]

theorem mkLog_notty (out0 log0 : Sink) (co : Bool) (m : RecMode) (cmd : Option (List ℕ))
    (args : Option (List (List ℕ))) (title : Option (List ℕ)) (tsz : Option (ℕ × ℕ))
    (t0 : ℕ) :
    mkLog out0 log0 co (some m) cmd args title false false tsz t0 =
      { out := out0, log := sinkWrite (plainCtorLine (combineCmd cmd args)) log0,
        close_out := co, closed := false, recMode := none, last := 0, start := 0,
        unicode := false } := by
  cases m <;> rcases hc : combineCmd cmd args with _ | c
  · simp [mkLog, hc, plainCtorLine, sinkWrite]
  · by_cases hce : c = [] <;> simp [mkLog, hc, plainCtorLine, sinkWrite, hce]
  · simp [mkLog, hc, plainCtorLine, sinkWrite]
  · by_cases hce : c = [] <;> simp [mkLog, hc, plainCtorLine, sinkWrite, hce]

/-- Claim C5: a recorder asked for ttyrec or asciinema whose live sink is not
a terminal silently records in plain mode: its effective mode is `None`, the
recording sink receives only the optional plain header line at construction
and the escape-sanitized text of each chunk, and `close()` appends no footer
— no binary frame, JSON header or JSON footer is ever produced. -/
theorem non_tty_rec_downgrades_plain (out0 log0 : Sink) (co : Bool) (m : RecMode)
    (cmd : Option (List ℕ)) (args : Option (List (List ℕ))) (title : Option (List ℕ))
    (tsz : Option (ℕ × ℕ)) (t0 : ℕ) (ws : List (ℕ × List ℕ)) (tc : ℕ) :
    (mkLog out0 log0 co (some m) cmd args title false false tsz t0).recMode = none ∧
      (mkLog out0 log0 co (some m) cmd args title false false tsz t0).log.buf
        = log0.buf ++ plainCtorLine (combineCmd cmd args) ∧
      (runWrites (mkLog out0 log0 co (some m) cmd args title false false tsz t0) ws).log.buf
        = log0.buf ++ (plainCtorLine (combineCmd cmd args) ++ plainRun ws) ∧
      (logClose tc (runWrites (mkLog out0 log0 co (some m) cmd args title false false tsz t0)
          ws)).log.buf
        = log0.buf ++ (plainCtorLine (combineCmd cmd args) ++ plainRun ws) := by
  rw [mkLog_notty]
  have hrun := runWrites_plain ws
    { out := out0, log := sinkWrite (plainCtorLine (combineCmd cmd args)) log0,
      close_out := co, closed := false, recMode := none, last := 0, start := 0,
      unicode := false } rfl rfl rfl
  refine ⟨rfl, by simp [sinkWrite], ?_, ?_⟩
  · simpa [sinkWrite, List.append_assoc] using hrun.1
  · rw [logClose_nonascii_buf _ tc hrun.2.1 hrun.2.2.1]
    simpa [sinkWrite, List.append_assoc] using hrun.1

/-- Claim C7: at construction in asciinema mode the header's width field is
the live console's column count and the height field its row count; when the
size query reports unavailable, both are zero and construction still
succeeds, writing the same header shape. -/
theorem asciinema_header_size_fields (out0 log0 : Sink) (co : Bool)
    (cmd : Option (List ℕ)) (args : Option (List (List ℕ))) (title : Option (List ℕ))
    (rows cols t0 : ℕ) :
    (mkLog out0 log0 co (some RecMode.asciinema) cmd args title false true
        (some (rows, cols)) t0).log.buf
      = log0.buf ++ asciHeader (combineCmd cmd args) title cols rows ∧
      (mkLog out0 log0 co (some RecMode.asciinema) cmd args title false true none t0).log.buf
        = log0.buf ++ asciHeader (combineCmd cmd args) title 0 0 := by
  constructor <;> simp [mkLog, consize, sinkWrite]

/-- Claim C10: with a non-empty command and non-empty argument list, plain
mode writes the line `'> ' + command + ' ' + ' '.join(args) + '\n'` to the
recording sink at construction, before any write; asciinema mode writes no
such line — its construction output is exactly the JSON header, with the
combined command string in the `command` field. -/
theorem plain_command_header_line (out0 log0 : Sink) (co : Bool) (c : List ℕ)
    (l : List (List ℕ)) (title : Option (List ℕ)) (tsz : Option (ℕ × ℕ))
    (isatty : Bool) (t0 : ℕ) (hc : c ≠ []) (hl : l ≠ []) :
    (mkLog out0 log0 co none (some c) (some l) title false isatty tsz t0).log.buf
      = log0.buf ++ ([62, 32] ++ ((c ++ (32 :: joinSp l)) ++ [10])) ∧
      (mkLog out0 log0 co (some RecMode.asciinema) (some c) (some l) title false true
          tsz t0).log.buf
        = log0.buf ++ asciHeader (some (c ++ (32 :: joinSp l))) title
            (consize tsz).1 (consize tsz).2 := by
  have hcc : combineCmd (some c) (some l) = some (c ++ (32 :: joinSp l)) := by
    simp [combineCmd, hc, hl]
  have hne : c ++ (32 :: joinSp l) ≠ [] := by simp
  constructor
  · simp [mkLog, hcc, hne, sinkWrite]
  · simp [mkLog, hcc, sinkWrite]

/-- Concrete instance of `plain_command_header_line`: command `ls`,
arguments `['-l']`. -/
theorem plain_command_header_line_witness :
    ([108, 115] : List ℕ) ≠ [] ∧ ([[45, 108]] : List (List ℕ)) ≠ [] ∧
      ((mkLog ⟨[], false, 0⟩ ⟨[], false, 0⟩ false none (some [108, 115]) (some [[45, 108]])
          none false false none 0).log.buf
        = (⟨[], false, 0⟩ : Sink).buf
            ++ ([62, 32] ++ (([108, 115] ++ (32 :: joinSp [[45, 108]])) ++ [10])) ∧
        (mkLog ⟨[], false, 0⟩ ⟨[], false, 0⟩ false (some RecMode.asciinema) (some [108, 115])
            (some [[45, 108]]) none false true none 0).log.buf
          = (⟨[], false, 0⟩ : Sink).buf
              ++ asciHeader (some ([108, 115] ++ (32 :: joinSp [[45, 108]]))) none
                  (consize none).1 (consize none).2) :=
  ⟨by decide, by decide,
    plain_command_header_line ⟨[], false, 0⟩ ⟨[], false, 0⟩ false [108, 115] [[45, 108]]
      none none false 0 (by decide) (by decide)⟩

theorem GoodDigits_single (c : ℕ) (h1 : 48 ≤ c) (h2 : c ≤ 57) : GoodDigits [c] := by
  refine ⟨?_, by simp, ?_⟩
  · intro x hx; simp at hx; omega
  · intro t ht
    injection ht with hh ht2
    exact ht2.symm

theorem natDigitsF_good : ∀ f n : ℕ, n ≤ f →
    GoodDigits (natDigitsF (f + 1) n) ∧ (natDigitsF (f + 1) n = [48] → n = 0) := by
  intro f
  induction f with
  | zero =>
      intro n hn
      have hz : n = 0 := by omega
      subst hz
      exact ⟨by simpa [natDigitsF] using GoodDigits_single 48 le_rfl (by omega), fun _ => rfl⟩
  | succ f ih =>
      intro n hn
      by_cases h10 : n < 10
      · constructor
        · simpa [natDigitsF, h10] using GoodDigits_single (48 + n) (by omega) (by omega)
        · intro h
          simp [natDigitsF, h10] at h
          omega
      · have hrec := ih (n / 10) (by omega)
        obtain ⟨⟨hall, hne, hz⟩, hone⟩ := hrec
        have hshape : natDigitsF (f + 1 + 1) n
            = natDigitsF (f + 1) (n / 10) ++ [48 + n % 10] := by
          simp [natDigitsF, h10]
        constructor
        · refine ⟨?_, ?_, ?_⟩
          · intro x hx
            rw [hshape] at hx
            rcases List.mem_append.1 hx with hx | hx
            · exact hall x hx
            · simp at hx; omega
          · rw [hshape]; simp
          · intro t ht
            rw [hshape] at ht
            exfalso
            cases hrep : natDigitsF (f + 1) (n / 10) with
            | nil => exact hne hrep
            | cons a r =>
                rw [hrep] at ht
                simp only [List.cons_append] at ht
                injection ht with hh ht2
                subst hh
                have hr : r = [] := hz r (by rw [hrep])
                subst hr
                have : n / 10 = 0 := hone (by rw [hrep])
                omega
        · intro h
          rw [hshape] at h
          have := congrArg List.length h
          simp at this
          exact absurd this hne

theorem natRender_good (n : ℕ) : GoodDigits (natRender n) :=
  (natDigitsF_good n n le_rfl).1

theorem intRender_num (d : ℤ) : JNumberP (intRender d) := by
  unfold intRender
  split
  · exact Or.inr ⟨_, rfl, natRender_good _⟩
  · exact Or.inl (natRender_good _)

theorem isHexDig_hexDig (x : ℕ) (h : x < 16) : isHexDig (hexDig x) := by
  unfold hexDig isHexDig
  split <;> omega

theorem jschars_append_escape (c : ℕ) (s : List ℕ) (h : JSChars s) :
    JSChars (jsonEscapeChar c ++ s) := by
  by_cases h1 : c = 34
  · simpa [jsonEscapeChar, h1] using JSChars.esc (c := 34) (by decide) h
  by_cases h2 : c = 92
  · simpa [jsonEscapeChar, h1, h2] using JSChars.esc (c := 92) (by decide) h
  by_cases h3 : c = 8
  · simpa [jsonEscapeChar, h1, h2, h3] using JSChars.esc (c := 98) (by decide) h
  by_cases h4 : c = 9
  · simpa [jsonEscapeChar, h1, h2, h3, h4] using JSChars.esc (c := 116) (by decide) h
  by_cases h5 : c = 10
  · simpa [jsonEscapeChar, h1, h2, h3, h4, h5] using JSChars.esc (c := 110) (by decide) h
  by_cases h6 : c = 12
  · simpa [jsonEscapeChar, h1, h2, h3, h4, h5, h6] using JSChars.esc (c := 102) (by decide) h
  by_cases h7 : c = 13
  · simpa [jsonEscapeChar, h1, h2, h3, h4, h5, h6, h7] using
      JSChars.esc (c := 114) (by decide) h
  by_cases h8 : c < 32 ∨ 126 < c
  · have h16 : ∀ y : ℕ, y % 16 < 16 := fun y => Nat.mod_lt _ (by omega)
    simpa [jsonEscapeChar, h1, h2, h3, h4, h5, h6, h7, h8, uEsc] using
      JSChars.uesc (isHexDig_hexDig _ (h16 _)) (isHexDig_hexDig _ (h16 _))
        (isHexDig_hexDig _ (h16 _)) (isHexDig_hexDig _ (h16 _)) h
  · have hc : 32 ≤ c ∧ c ≤ 126 := by omega
    simpa [jsonEscapeChar, h1, h2, h3, h4, h5, h6, h7, h8] using
      JSChars.raw hc.1 hc.2 h1 h2 h

theorem jschars_escAll (s : List ℕ) : JSChars (escAll s) := by
  induction s with
  | nil => exact JSChars.nil
  | cons c s ih => exact jschars_append_escape c _ ih

theorem jsonStr_string (s : List ℕ) : JStringP (jsonStr s) :=
  ⟨escAll s, jschars_escAll s, rfl⟩

theorem jschars_plain (s : List ℕ) (h : ∀ c ∈ s, 32 ≤ c ∧ c ≤ 126 ∧ c ≠ 34 ∧ c ≠ 92) :
    JSChars s := by
  induction s with
  | nil => exact JSChars.nil
  | cons c s ih =>
      obtain ⟨h1, h2, h3, h4⟩ := h c (by simp)
      exact JSChars.raw h1 h2 h3 h4 (ih fun x hx => h x (by simp [hx]))

theorem jkey_string (s : List ℕ) (h : ∀ c ∈ s, 32 ≤ c ∧ c ≤ 126 ∧ c ≠ 34 ∧ c ≠ 92) :
    JStringP (jkey s) :=
  ⟨s, jschars_plain s h, rfl⟩

theorem jsonDumpOpt_value (o : Option (List ℕ)) : JValue (jsonDumpOpt o) := by
  cases o with
  | none => exact JValue.null
  | some s => exact JValue.str (jsonStr_string s)

theorem frameText_value (d : ℤ) (s : List ℕ) : JValue (frameText d s) := by
  have hi : JItems (intRender d ++ (44 :: (32 :: jsonStr s))) :=
    JItems.consSp (JValue.num (intRender_num d)) (JItems.single (JValue.str (jsonStr_string s)))
  simpa [frameText, List.append_assoc] using JValue.arr hi

theorem itemsOf_items (L : List (ℤ × List ℕ)) (h : L ≠ []) : JItems (itemsOf L) := by
  induction L with
  | nil => exact absurd rfl h
  | cons p L ih =>
      obtain ⟨d, s⟩ := p
      cases L with
      | nil => simpa [itemsOf, tailItems] using JItems.single (frameText_value d s)
      | cons q L2 =>
          obtain ⟨dq, sq⟩ := q
          simpa [itemsOf, tailItems] using JItems.cons (frameText_value d s) (ih (by simp))

theorem stdout_value (L : List (ℤ × List ℕ)) : JValue (91 :: (itemsOf L ++ [93])) := by
  cases L with
  | nil => simpa [itemsOf] using JValue.arrNil
  | cons p L2 => exact JValue.arr (itemsOf_items _ (by simp))

theorem asciDoc_value (cmd title : Option (List ℕ)) (w hgt : ℕ)
    (L : List (ℤ × List ℕ)) (D : ℤ) :
    JValue (asciHeader cmd title w hgt ++ (itemsOf L ++ asciFooter D)) := by
  have hm :=
    JMembers.cons (jkey_string kCommand (by decide)) (jsonDumpOpt_value cmd)
      (JMembers.cons (jkey_string kTitle (by decide)) (jsonDumpOpt_value title)
        (JMembers.cons (jkey_string kEnv (by decide)) JValue.null
          (JMembers.cons (jkey_string kVersion (by decide))
              (JValue.num (Or.inl (GoodDigits_single 49 (by omega) (by omega))))
            (JMembers.cons (jkey_string kWidth (by decide))
                (JValue.num (Or.inl (natRender_good w)))
              (JMembers.cons (jkey_string kHeight (by decide))
                  (JValue.num (Or.inl (natRender_good hgt)))
                (JMembers.cons (jkey_string kStdout (by decide)) (stdout_value L)
                  (JMembers.single (jkey_string kDuration (by decide))
                    (JValue.num (intRender_num D)))))))))
  simpa [asciHeader, asciFooter, member, litNull, List.append_assoc] using JValue.obj hm

theorem asciRun_pos (ws : List (ℕ × List ℕ)) :
    ∀ last : ℕ, last ≠ 0 → (∀ p ∈ ws, 0 < p.1) →
      asciRun last ws = tailItems (asciDeltas last ws) := by
  induction ws with
  | nil => intro last _ _; rfl
  | cons p ws ih =>
      intro last hl hp
      obtain ⟨t, d⟩ := p
      have ht : 0 < t := hp (t, d) (by simp)
      simp [asciRun, asciDeltas, tailItems, hl,
        ih t (by omega) (fun q hq => hp q (by simp [hq]))]

theorem asciRun_zero (ws : List (ℕ × List ℕ)) (hp : ∀ p ∈ ws, 0 < p.1) :
    asciRun 0 ws = itemsOf (asciDeltas 0 ws) := by
  cases ws with
  | nil => rfl
  | cons p ws2 =>
      obtain ⟨t, d⟩ := p
      have ht : 0 < t := hp (t, d) (by simp)
      simp [asciRun, asciDeltas, itemsOf,
        asciRun_pos ws2 t (by omega) (fun q hq => hp q (by simp [hq]))]

theorem asciDeltas_length (ws : List (ℕ × List ℕ)) :
    ∀ last : ℕ, (asciDeltas last ws).length = ws.length := by
  induction ws with
  | nil => intro last; rfl
  | cons p ws ih => intro last; obtain ⟨t, d⟩ := p; simp [asciDeltas, ih t]

theorem mkLog_ascii (out0 log0 : Sink) (co : Bool) (cmd : Option (List ℕ))
    (args : Option (List (List ℕ))) (title : Option (List ℕ)) (tsz : Option (ℕ × ℕ))
    (t0 : ℕ) :
    mkLog out0 log0 co (some RecMode.asciinema) cmd args title false true tsz t0 =
      { out := out0,
        log := sinkWrite (asciHeader (combineCmd cmd args) title
          (consize tsz).1 (consize tsz).2) log0,
        close_out := co, closed := false, recMode := some RecMode.asciinema,
        last := 0, start := t0, unicode := false } := by
  simp [mkLog]

/-- Claim C2: an asciinema session of n non-empty writes followed by one
close writes to the recording sink exactly the JSON header, then the n
frames in call order with their computed durations, then — once, at close —
the duration member and closing brace; the resulting document is
syntactically valid JSON (`JValue`) and its `stdout` array has exactly n
elements.  Write timestamps are positive, as `time.time()` always is (a
write at clock 0 would leave `self.last` falsy and lose a separating
comma). -/
theorem asciinema_doc_valid_json (out0 log0 : Sink) (co : Bool) (cmd : Option (List ℕ))
    (args : Option (List (List ℕ))) (title : Option (List ℕ)) (tsz : Option (ℕ × ℕ))
    (t0 tc : ℕ) (ws : List (ℕ × List ℕ)) (hws : ∀ p ∈ ws, 0 < p.1 ∧ p.2 ≠ []) :
    (logClose tc (runWrites (mkLog out0 log0 co (some RecMode.asciinema) cmd args title
        false true tsz t0) ws)).log.buf
      = log0.buf ++ (asciHeader (combineCmd cmd args) title (consize tsz).1 (consize tsz).2
          ++ (itemsOf (asciDeltas 0 ws) ++ asciFooter ((tc : ℤ) - (t0 : ℤ)))) ∧
      JValue (asciHeader (combineCmd cmd args) title (consize tsz).1 (consize tsz).2
          ++ (itemsOf (asciDeltas 0 ws) ++ asciFooter ((tc : ℤ) - (t0 : ℤ)))) ∧
      (asciDeltas 0 ws).length = ws.length := by
  rw [mkLog_ascii]
  have hrun := runWrites_ascii ws
    { out := out0,
      log := sinkWrite (asciHeader (combineCmd cmd args) title
        (consize tsz).1 (consize tsz).2) log0,
      close_out := co, closed := false, recMode := some RecMode.asciinema,
      last := 0, start := t0, unicode := false }
    rfl rfl rfl (fun p hp => (hws p hp).2)
  obtain ⟨hbuf, _, hcl, hrec, hstart, _⟩ := hrun
  refine ⟨?_, asciDoc_value _ _ _ _ _ _, asciDeltas_length ws 0⟩
  have hclose : ∀ st : LogState, st.closed = false → st.recMode = some RecMode.asciinema →
      (logClose tc st).log.buf
        = st.log.buf ++ asciFooter ((tc : ℤ) - (st.start : ℤ)) := by
    intro st h1 h2
    simp [logClose, h1, h2, sinkClose, sinkWrite]
  rw [hclose _ hcl hrec, hbuf, hstart]
  simp only [sinkWrite]
  simp [asciRun_zero ws (fun p hp => (hws p hp).1), List.append_assoc]

/-- Concrete instance of `asciinema_doc_valid_json`: two writes at clocks 1
and 3, closed at 4. -/
theorem asciinema_doc_valid_json_witness :
    (∀ p ∈ ([(1, [104]), (3, [33])] : List (ℕ × List ℕ)), 0 < p.1 ∧ p.2 ≠ []) ∧
      ((logClose 4 (runWrites (mkLog ⟨[], false, 0⟩ ⟨[], false, 0⟩ false
          (some RecMode.asciinema) none none none false true none 1)
          [(1, [104]), (3, [33])])).log.buf
        = (⟨[], false, 0⟩ : Sink).buf
            ++ (asciHeader (combineCmd none none) none (consize none).1 (consize none).2
              ++ (itemsOf (asciDeltas 0 [(1, [104]), (3, [33])])
                ++ asciFooter ((4 : ℤ) - (1 : ℤ)))) ∧
        JValue (asciHeader (combineCmd none none) none (consize none).1 (consize none).2
            ++ (itemsOf (asciDeltas 0 [(1, [104]), (3, [33])])
              ++ asciFooter ((4 : ℤ) - (1 : ℤ)))) ∧
        (asciDeltas 0 ([(1, [104]), (3, [33])] : List (ℕ × List ℕ))).length
          = ([(1, [104]), (3, [33])] : List (ℕ × List ℕ)).length) :=
  ⟨by decide, asciinema_doc_valid_json ⟨[], false, 0⟩ ⟨[], false, 0⟩ false none none none none
      1 4 [(1, [104]), (3, [33])] (by decide)⟩

theorem asciDeltas_specTail (ws : List (ℕ × List ℕ)) :
    ∀ t : ℕ, 0 < t → (∀ p ∈ ws, 0 < p.1) → asciDeltas t ws = specTail t ws := by
  induction ws with
  | nil => intro t _ _; rfl
  | cons p ws ih =>
      intro t ht hp
      obtain ⟨tq, d⟩ := p
      have htq : 0 < tq := hp (tq, d) (by simp)
      simp [asciDeltas, specTail, (by omega : t ≠ 0),
        ih tq (by omega) (fun q hq => hp q (by simp [hq]))]
      intro h
      omega

/-- Claim C6, amended: the delta recorded with the first appended asciinema
frame is 0 (the `if self.last` guard sees the constructor's `last = 0`), not
the first write's timestamp minus the session start; the delta of every
subsequent frame equals its timestamp minus the previous write's timestamp;
and after each write `self.last` is that write's timestamp. -/
theorem asciinema_first_delta_zero (out0 log0 : Sink) (co : Bool) (cmd : Option (List ℕ))
    (args : Option (List (List ℕ))) (title : Option (List ℕ)) (tsz : Option (ℕ × ℕ))
    (t0 t1 : ℕ) (d1 : List ℕ) (rest : List (ℕ × List ℕ))
    (ht1 : 0 < t1) (hd1 : d1 ≠ []) (hrest : ∀ p ∈ rest, 0 < p.1 ∧ p.2 ≠ []) :
    (runWrites (mkLog out0 log0 co (some RecMode.asciinema) cmd args title false true tsz t0)
        ((t1, d1) :: rest)).log.buf
      = log0.buf ++ (asciHeader (combineCmd cmd args) title (consize tsz).1 (consize tsz).2
          ++ itemsOf ((0, d1) :: specTail t1 rest)) ∧
      (runWrites (mkLog out0 log0 co (some RecMode.asciinema) cmd args title false true tsz t0)
          ((t1, d1) :: rest)).last = lastTime 0 ((t1, d1) :: rest) ∧
      ∀ (st : LogState) (t : ℕ) (d : List ℕ), st.closed = false → d ≠ [] →
        (logWrite t d st).last = t := by
  rw [mkLog_ascii]
  have hws : ∀ p ∈ (t1, d1) :: rest, 0 < p.1 ∧ p.2 ≠ [] := by
    intro p hp
    rcases List.mem_cons.1 hp with h | h
    · subst h; exact ⟨ht1, hd1⟩
    · exact hrest p h
  have hrun := runWrites_ascii ((t1, d1) :: rest)
    { out := out0,
      log := sinkWrite (asciHeader (combineCmd cmd args) title
        (consize tsz).1 (consize tsz).2) log0,
      close_out := co, closed := false, recMode := some RecMode.asciinema,
      last := 0, start := t0, unicode := false }
    rfl rfl rfl (fun p hp => (hws p hp).2)
  obtain ⟨hbuf, hlast, _, _, _, _⟩ := hrun
  refine ⟨?_, ?_, fun st t d h1 h2 => (logWrite_fields t d st h1 h2).2.2.2.2.2.2.1⟩
  · rw [hbuf]
    have hzero := asciRun_zero ((t1, d1) :: rest) (fun p hp => (hws p hp).1)
    have hdel : asciDeltas 0 ((t1, d1) :: rest) = (0, d1) :: specTail t1 rest := by
      simp [asciDeltas, asciDeltas_specTail rest t1 ht1 (fun q hq => (hrest q hq).1)]
    rw [hzero, hdel]
    simp [sinkWrite, List.append_assoc]
  · exact hlast

/-- Concrete instance of `asciinema_first_delta_zero`: session opened at
clock 2, writes at clocks 5 and 6. -/
theorem asciinema_first_delta_zero_witness :
    0 < 5 ∧ ([120] : List ℕ) ≠ [] ∧
      (∀ p ∈ ([(6, [121])] : List (ℕ × List ℕ)), 0 < p.1 ∧ p.2 ≠ []) ∧
      ((runWrites (mkLog ⟨[], false, 0⟩ ⟨[], false, 0⟩ false (some RecMode.asciinema)
          none none none false true none 2) ((5, [120]) :: [(6, [121])])).log.buf
        = (⟨[], false, 0⟩ : Sink).buf
            ++ (asciHeader (combineCmd none none) none (consize none).1 (consize none).2
              ++ itemsOf ((0, [120]) :: specTail 5 [(6, [121])])) ∧
        (runWrites (mkLog ⟨[], false, 0⟩ ⟨[], false, 0⟩ false (some RecMode.asciinema)
            none none none false true none 2) ((5, [120]) :: [(6, [121])])).last
          = lastTime 0 ((5, [120]) :: [(6, [121])]) ∧
        ∀ (st : LogState) (t : ℕ) (d : List ℕ), st.closed = false → d ≠ [] →
          (logWrite t d st).last = t) :=
  ⟨by decide, by decide, by decide,
    asciinema_first_delta_zero ⟨[], false, 0⟩ ⟨[], false, 0⟩ false none none none none
      2 5 [120] [(6, [121])] (by decide) (by decide) (by decide)⟩

/-- Counterexample to claim C6 as stated: a session constructed at clock 1
whose first write happens at clock 5 records the frame with delta 0 — the
code takes the `else` branch of `if self.last` because `last` is still 0 —
whereas the claim demands delta `5 - 1`. -/
theorem asciinema_first_delta_counterexample :
    (logWrite 5 [120] (mkLog ⟨[], false, 0⟩ ⟨[], false, 0⟩ false (some RecMode.asciinema)
        none none none false true none 1)).log.buf
      = (mkLog ⟨[], false, 0⟩ ⟨[], false, 0⟩ false (some RecMode.asciinema)
          none none none false true none 1).log.buf ++ frameText 0 [120] ∧
      frameText 0 [120] ≠ frameText ((5 : ℤ) - (1 : ℤ)) [120] := by
  exact ⟨by decide, by decide⟩

/-- Claim C8, amended: the text a plain-mode write appends to the recording
sink equals the chunk with the occurrences of each distinct regex-matched
escape sequence removed by successive `replace` passes, one per distinct
sequence, in the Python set's iteration order — CPython 2's deterministic
hash-slot order, modelled by `pySetList` inside `clean`; the spec's example
holds — the chunk ESC `[31m` `red` ESC `[0m` records as `red` — but a later
removal can splice the flanks of deleted occurrences into a fresh occurrence
of an already-processed sequence, so the output is not in general free of
every matched sequence. -/
theorem plain_write_sanitizes (st : LogState) (t : ℕ) (d : List ℕ)
    (hcl : st.closed = false) (hrec : st.recMode = none) (huni : st.unicode = false)
    (hd : d ≠ []) :
    logWrite t d st =
      { st with out := sinkWrite d st.out, log := sinkWrite (clean d) st.log, last := t } ∧
      clean ([27, 91, 51, 49, 109] ++ ([114, 101, 100] ++ [27, 91, 48, 109]))
        = [114, 101, 100] :=
  ⟨logWrite_plain_step t d st hcl hrec huni hd, by decide⟩

/-- Concrete instance of `plain_write_sanitizes`: the spec's SGR example
written into a fresh plain session. -/
theorem plain_write_sanitizes_witness :
    (mkLog ⟨[], false, 0⟩ ⟨[], false, 0⟩ false none none none none
        false false none 0).closed = false ∧
      (mkLog ⟨[], false, 0⟩ ⟨[], false, 0⟩ false none none none none
        false false none 0).recMode = none ∧
      (mkLog ⟨[], false, 0⟩ ⟨[], false, 0⟩ false none none none none
        false false none 0).unicode = false ∧
      ([27, 91, 51, 49, 109, 114, 101, 100, 27, 91, 48, 109] : List ℕ) ≠ [] ∧
      (logWrite 1 [27, 91, 51, 49, 109, 114, 101, 100, 27, 91, 48, 109]
          (mkLog ⟨[], false, 0⟩ ⟨[], false, 0⟩ false none none none none
            false false none 0) =
        { mkLog ⟨[], false, 0⟩ ⟨[], false, 0⟩ false none none none none
            false false none 0 with
          out := sinkWrite [27, 91, 51, 49, 109, 114, 101, 100, 27, 91, 48, 109]
            (mkLog ⟨[], false, 0⟩ ⟨[], false, 0⟩ false none none none none
              false false none 0).out,
          log := sinkWrite (clean [27, 91, 51, 49, 109, 114, 101, 100, 27, 91, 48, 109])
            (mkLog ⟨[], false, 0⟩ ⟨[], false, 0⟩ false none none none none
              false false none 0).log,
          last := 1 } ∧
        clean ([27, 91, 51, 49, 109] ++ ([114, 101, 100] ++ [27, 91, 48, 109]))
          = [114, 101, 100]) :=
  ⟨by decide, by decide, by decide, by decide,
    plain_write_sanitizes (mkLog ⟨[], false, 0⟩ ⟨[], false, 0⟩ false none none none none
        false false none 0) 1 [27, 91, 51, 49, 109, 114, 101, 100, 27, 91, 48, 109]
      (by decide) (by decide) (by decide) (by decide)⟩

/-- Counterexample to claim C8 as stated: the chunk ESC C m ESC C ESC C m m
has matched sequences p = ESC C m and q = ESC C ESC C m, whose CPython 2
string hashes place p at set slot 0 and q at slot 4 (on 32- and 64-bit
builds alike), so the set iterates p before q.  Removing every occurrence of
p splices its two neighbouring occurrences' flanks into a fresh ESC C m,
which q's removal leaves intact: the text recorded for this chunk is exactly
ESC C m — one of the matched sequences present in the input chunk. -/
theorem plain_clean_leftover_counterexample :
    [27, 67, 109] ∈ findMatches [27, 67, 109, 27, 67, 27, 67, 109, 109] ∧
      (logWrite 1 [27, 67, 109, 27, 67, 27, 67, 109, 109]
          (mkLog ⟨[], false, 0⟩ ⟨[], false, 0⟩ false none none none none
            false false none 0)).log.buf = [27, 67, 109] ∧
      occursIn [27, 67, 109]
        ((logWrite 1 [27, 67, 109, 27, 67, 27, 67, 109, 109]
            (mkLog ⟨[], false, 0⟩ ⟨[], false, 0⟩ false none none none none
              false false none 0)).log.buf) = true :=
  ⟨by decide, by decide, by decide⟩
